import Mathlib

/-
Verification of `src/core/save.rs` of universal-android-debloater: the
snapshot (backup) builder, the snapshot store (listing / user preview) and
the restore planner.  File contents are modelled at the structured-JSON
level: the textual layer (serde_json to_string_pretty / from_str) is
collapsed, so a file holds a `Json` value and parsing a struct out of it is
modelled by explicit decoders mirroring the serde derives.
-/

set_option maxHeartbeats 1000000

/-- Modelled from the spec: the fixed enumeration of package states
(enabled / disabled / uninstalled).  The exact enumeration is owned by the
external state-transition policy in `crate::core::sync`, which is not part
of the analysed source. -/
inductive PackageState where
  | enabled
  | disabled
  | uninstalled
deriving DecidableEq

/-- Modelled from the spec: `CorePackage` from `crate::core::sync` (not in
the analysed source) — a package identified by `name` with a `state`;
`save.rs` uses exactly these two fields. -/
structure CorePackage where
  name : String
  state : PackageState
deriving DecidableEq

/-- Modelled from the spec: `User` from `crate::core::sync` (not in the
analysed source) — stable `id` (u16, modelled as Nat), transient live
`index` (usize, modelled as Nat) and a `protected` flag. -/
structure User where
  id : Nat
  index : Nat
  «protected» : Bool
deriving DecidableEq

/-- Modelled from the spec: `Phone` from `crate::core::sync` (not in the
analysed source); `save.rs` only reads its `user_list`. -/
structure Phone where
  user_list : List User
deriving DecidableEq

/-- Modelled from the spec: `PackageRow` from `crate::gui::widgets`
(not in the analysed source); `save.rs` reads its `name` and `state` and
converts it into a `CorePackage` via `.into()`. -/
structure PackageRow where
  name : String
  state : PackageState
deriving DecidableEq

/-- Modelled from the spec: `DisplayablePath` from `crate::core::utils`
(not in the analysed source), wrapping a filesystem path (modelled as a
String). -/
structure DisplayablePath where
  path : String
deriving DecidableEq

/-- Modelled from the spec: the backup section of `DeviceSettings`
(`crate::core::config`, not in the analysed source): the previously
selected backup file and the previously selected target user. -/
structure BackupSettings where
  selected : Option DisplayablePath
  selected_user : Option User
deriving DecidableEq

/-- Modelled from the spec: `DeviceSettings` from `crate::core::config`
(not in the analysed source); `save.rs` reads `settings.backup.selected`
and `settings.backup.selected_user`. -/
structure DeviceSettings where
  backup : BackupSettings
deriving DecidableEq

/-- `UserBackup` (save.rs, lines 20 to 24): one captured user id together
with its captured package list. -/
structure UserBackup where
  id : Nat
  packages : List CorePackage
deriving DecidableEq

/-- `PhoneBackup` (save.rs, lines 14 to 18): the on-disk snapshot record. -/
structure PhoneBackup where
  device_id : String
  users : List UserBackup
deriving DecidableEq

/-- `BackupPackage` (save.rs, lines 102 to 106): one restore-plan entry,
carrying the package position within its user snapshot and the commands. -/
structure BackupPackage where
  index : Nat
  commands : List String
deriving DecidableEq

/-- Structured JSON values; the on-disk snapshot format of save.rs is JSON
produced and consumed by serde derives on `PhoneBackup`. -/
inductive Json where
  | str : String → Json
  | num : Nat → Json
  | arr : List Json → Json
  | obj : List (String × Json) → Json

/-- Modelled from the spec: serde serialization of the state enumeration as
its variant name. -/
def PackageState.toJson : PackageState → Json
  | .enabled => .str "Enabled"
  | .disabled => .str "Disabled"
  | .uninstalled => .str "Uninstalled"

/-- Modelled from the spec: serde deserialization of the state enumeration. -/
def PackageState.fromJson : Json → Except String PackageState
  | .str "Enabled" => .ok .enabled
  | .str "Disabled" => .ok .disabled
  | .str "Uninstalled" => .ok .uninstalled
  | _ => .error "invalid package state"

/-- Field access of a serde-style JSON object. -/
def Json.getField : Json → String → Except String Json
  | .obj fields, k =>
    match fields.lookup k with
    | some v => .ok v
    | none => .error ("missing field " ++ k)
  | _, _ => .error "expected object"

def Json.asString : Json → Except String String
  | .str s => .ok s
  | _ => .error "expected string"

def Json.asNat : Json → Except String Nat
  | .num n => .ok n
  | _ => .error "expected integer"

def Json.asArr : Json → Except String (List Json)
  | .arr l => .ok l
  | _ => .error "expected array"

/-- Serde serialization of `CorePackage` (derive on save.rs line 14 context:
`CorePackage` derives Serialize in `crate::core::sync`). -/
def CorePackage.toJson (p : CorePackage) : Json :=
  .obj [("name", .str p.name), ("state", p.state.toJson)]

/-- Serde deserialization of `CorePackage`. -/
def CorePackage.fromJson (j : Json) : Except String CorePackage := do
  let n ← (← j.getField "name").asString
  let s ← PackageState.fromJson (← j.getField "state")
  return { name := n, state := s }

/-- Serde serialization of `UserBackup` (derive on save.rs line 20). -/
def UserBackup.toJson (u : UserBackup) : Json :=
  .obj [("id", .num u.id), ("packages", .arr (u.packages.map CorePackage.toJson))]

/-- Serde deserialization of `UserBackup`. -/
def UserBackup.fromJson (j : Json) : Except String UserBackup := do
  let i ← (← j.getField "id").asNat
  let pkgs ← (← j.getField "packages").asArr
  let ps ← pkgs.mapM CorePackage.fromJson
  return { id := i, packages := ps }

/-- Serde serialization of `PhoneBackup` (derive on save.rs line 14). -/
def PhoneBackup.toJson (b : PhoneBackup) : Json :=
  .obj [("device_id", .str b.device_id),
        ("users", .arr (b.users.map UserBackup.toJson))]

/-- Serde deserialization of `PhoneBackup` (serde_json from_str target in
save.rs lines 80 and 122). -/
def PhoneBackup.fromJson (j : Json) : Except String PhoneBackup := do
  let d ← (← j.getField "device_id").asString
  let us ← (← j.getField "users").asArr
  let users ← us.mapM UserBackup.fromJson
  return { device_id := d, users := users }

/-- Conversion `PackageRow` → `CorePackage` (the `p.into()` and the map in
save.rs lines 42 to 45): copy `name` and `state`. -/
def PackageRow.toCore (p : PackageRow) : CorePackage :=
  { name := p.name, state := p.state }

/-- The per-user fold of `backup_phone` (save.rs lines 32 to 52): walk the
users with their running position, pair each with `phone_packages[index]`
and capture every `(name, state)` pair.  `none` models the Rust index panic
when `phone_packages` is shorter than `users`. -/
def buildUserBackups : List User → Nat → List (List PackageRow) → Option (List UserBackup)
  | [], _, _ => some []
  | u :: us, i, pp =>
    match pp[i]? with
    | none => none
    | some rows =>
      (buildUserBackups us (i + 1) pp).map
        (fun rest => { id := u.id, packages := rows.map PackageRow.toCore } :: rest)

/-- The snapshot-construction part of `backup_phone` (save.rs lines 32 to
52), before any file interaction: the built `PhoneBackup`, or `none` for
the index panic on misaligned inputs. -/
def backup_phone_build (users : List User) (device_id : String)
    (phone_packages : List (List PackageRow)) : Option PhoneBackup :=
  (buildUserBackups users 0 phone_packages).map
    (fun ubs => { device_id := device_id, users := ubs })

/-- A directory entry as far as save.rs uses it: its path. -/
structure DirEntry where
  path : String
deriving DecidableEq

/-- `list_available_backups` (save.rs lines 67 to 76).  The filesystem is
modelled by the outcome of `fs::read_dir`: either an error or the list of
per-entry outcomes.  Failed entries are dropped by `filter_map(Result::ok)`
and a failed directory read yields the default empty vector. -/
def list_available_backups (readDir : Except String (List (Except String DirEntry))) :
    List DisplayablePath :=
  match readDir with
  | .ok entries =>
    (entries.filterMap Except.toOption).map (fun entry => { path := entry.path })
  | .error _ => []

/-- `list_available_backup_users` (save.rs lines 78 to 100).  The file read
is modelled by its outcome `readFile`; parsing by `PhoneBackup.fromJson`.
Every user of a parsed snapshot is returned with `index` 0 and `protected`
false; on read or parse failure the result is the empty list. -/
def list_available_backup_users (readFile : Except String Json) : List User :=
  match readFile with
  | .ok data =>
    match PhoneBackup.fromJson data with
    | .ok phone_backup =>
      phone_backup.users.map (fun u => { id := u.id, index := 0, «protected» := false })
    | .error _ => []
  | .error _ => []

/-- Outcome of `restore_backup`: a Rust `Ok`, a Rust `Err(String)`, or a
panic — the unchecked `packages[user_index]` indexing in save.rs line 140
aborts instead of returning either. -/
inductive RResult (α : Type) where
  | ok : α → RResult α
  | err : String → RResult α
  | panic : RResult α
deriving DecidableEq

def RResult.map {α β : Type} (f : α → β) : RResult α → RResult β
  | .ok a => .ok (f a)
  | .err e => .err e
  | .panic => .panic

/-- The apostrophe character, kept out of string literals. -/
def apos : String := String.singleton (Char.ofNat 39)

/-- The error text of save.rs line 136. -/
def userNotFoundMsg (id : Nat) : String :=
  "User " ++ toString id ++ " doesn" ++ apos ++ "t exist"

/-- The error text of save.rs line 144. -/
def packageNotFoundMsg (name : String) (id : Nat) : String :=
  "Package " ++ name ++ " not found for user " ++ toString id

/-- The signature of the external collaborator `apply_pkg_state_commands`
from `crate::core::sync` (consumed, not implemented, by save.rs). -/
def ApplyFn : Type :=
  CorePackage → PackageState → User → Phone → List String

/-- One iteration of the inner package loop of `restore_backup` (save.rs
lines 139 to 159): index the live per-user table (panic when out of range),
find the live package by name (error when absent), call
`apply_pkg_state_commands`, and keep an entry only when the returned
command list is non-empty. -/
def processPackage (apply : ApplyFn) (selected_device : Phone)
    (packages : List (List PackageRow)) (selected_user : User)
    (ubId userIndex i : Nat) (bp : CorePackage) :
    RResult (Option BackupPackage) :=
  match packages[userIndex]? with
  | none => .panic
  | some rows =>
    match rows.find? (fun x => x.name == bp.name) with
    | none => .err (packageNotFoundMsg bp.name ubId)
    | some p =>
      let cmds := apply p.toCore bp.state selected_user selected_device
      if cmds.isEmpty then .ok none else .ok (some { index := i, commands := cmds })

/-- The inner package loop of `restore_backup` (save.rs lines 139 to 159)
over one user snapshot, with `i` the running `enumerate` position. -/
def processPackages (apply : ApplyFn) (selected_device : Phone)
    (packages : List (List PackageRow)) (selected_user : User)
    (ubId userIndex : Nat) : Nat → List CorePackage → RResult (List BackupPackage)
  | _, [] => .ok []
  | i, bp :: rest =>
    match processPackage apply selected_device packages selected_user ubId userIndex i bp with
    | .ok none => processPackages apply selected_device packages selected_user ubId userIndex (i + 1) rest
    | .ok (some entry) =>
      RResult.map (fun l => entry :: l)
        (processPackages apply selected_device packages selected_user ubId userIndex (i + 1) rest)
    | .err e => .err e
    | .panic => .panic

/-- The outer user loop of `restore_backup` (save.rs lines 131 to 160):
resolve each snapshot user against `selected_device.user_list` by `id`
(error when absent), then run the package loop with the resolved live
`index`. -/
def processUsers (apply : ApplyFn) (selected_device : Phone)
    (packages : List (List PackageRow)) (selected_user : User) :
    List UserBackup → RResult (List BackupPackage)
  | [] => .ok []
  | ub :: rest =>
    match selected_device.user_list.find? (fun x => x.id == ub.id) with
    | none => .err (userNotFoundMsg ub.id)
    | some u =>
      match processPackages apply selected_device packages selected_user ub.id u.index 0 ub.packages with
      | .ok l => RResult.map (fun l2 => l ++ l2) (processUsers apply selected_device packages selected_user rest)
      | .err e => .err e
      | .panic => .panic

/-- `restore_backup` (save.rs lines 108 to 170).  The file read is modelled
by `readFile` (path → outcome), parsing by `PhoneBackup.fromJson`, and the
external `apply_pkg_state_commands` by `apply`.  The order of the checks is
the order of the source: backup selection, file read, parse, user
selection, then the user loop; a trailing sentinel entry is appended to a
non-empty plan. -/
def restore_backup (readFile : String → Except String Json) (apply : ApplyFn)
    (selected_device : Phone) (packages : List (List PackageRow))
    (settings : DeviceSettings) : RResult (List BackupPackage) :=
  match settings.backup.selected with
  | none => .err "No backup selected"
  | some dp =>
    match readFile dp.path with
    | .error e => .err e
    | .ok data =>
      match PhoneBackup.fromJson data with
      | .error e => .err e
      | .ok phone_backup =>
        match settings.backup.selected_user with
        | none => .err "No user selected"
        | some selected_user =>
          match processUsers apply selected_device packages selected_user phone_backup.users with
          | .ok cmds =>
            .ok (if cmds.isEmpty then cmds else cmds ++ [{ index := 0, commands := [] }])
          | .err e => .err e
          | .panic => .panic

/-- Demonstration device: one user profile with id 1 at live index 0. -/
def demoPhone : Phone :=
  { user_list := [{ id := 1, index := 0, «protected» := false }] }

/-- Demonstration device with two profiles, ids 1 and 2. -/
def demoPhoneTwo : Phone :=
  { user_list := [{ id := 1, index := 0, «protected» := false },
                  { id := 2, index := 1, «protected» := false }] }

/-- Demonstration device whose only profile reports live index 5. -/
def demoPhoneBadIndex : Phone :=
  { user_list := [{ id := 1, index := 5, «protected» := false }] }

/-- Demonstration live inventory: user index 0 holds com.foo, enabled. -/
def demoPackages : List (List PackageRow) :=
  [[{ name := "com.foo", state := .enabled }]]

/-- Demonstration snapshot: user 1 recorded com.foo as disabled. -/
def demoBackup : PhoneBackup :=
  { device_id := "dev",
    users := [{ id := 1, packages := [{ name := "com.foo", state := .disabled }] }] }

/-- Demonstration snapshot matching the live state of `demoPackages`. -/
def demoBackupSame : PhoneBackup :=
  { device_id := "dev",
    users := [{ id := 1, packages := [{ name := "com.foo", state := .enabled }] }] }

/-- Demonstration snapshot naming a user id (7) absent from the devices. -/
def demoBackupNoUser : PhoneBackup :=
  { device_id := "dev", users := [{ id := 7, packages := [] }] }

/-- Demonstration snapshot naming a package absent from the live lists. -/
def demoBackupNoPkg : PhoneBackup :=
  { device_id := "dev",
    users := [{ id := 1, packages := [{ name := "com.example.app", state := .disabled }] }] }

/-- Demonstration settings: backup and target user both selected. -/
def demoSettings : DeviceSettings :=
  { backup := { selected := some { path := "b.json" },
                selected_user := some { id := 1, index := 0, «protected» := false } } }

/-- Settings with a backup selected but no target user selected. -/
def demoSettingsNoUser : DeviceSettings :=
  { backup := { selected := some { path := "b.json" }, selected_user := none } }

/-- A file system holding the given snapshot at every path. -/
def readOf (pb : PhoneBackup) : String → Except String Json :=
  fun _ => .ok pb.toJson

/-- Demonstration state-transition policy: a disable command when the live
state differs from the recorded one, nothing otherwise. -/
def demoApply : ApplyFn :=
  fun p s _ _ => if p.state = s then [] else ["pm disable-user com.foo"]

theorem mapM_map_roundtrip {α β : Type} (enc : α → β) (dec : β → Except String α)
    (h : ∀ x, dec (enc x) = .ok x) :
    ∀ l : List α, (l.map enc).mapM dec = .ok l := by
  intro l
  induction l with
  | nil => rfl
  | cons x xs ih =>
    simp only [List.map_cons, List.mapM_cons, h x, ih]
    rfl

theorem corePackage_fromJson_toJson (p : CorePackage) :
    CorePackage.fromJson p.toJson = .ok p := by
  rcases p with ⟨n, s⟩
  cases s <;> rfl

theorem userBackup_fromJson_toJson (u : UserBackup) :
    UserBackup.fromJson u.toJson = .ok u := by
  rcases u with ⟨i, pkgs⟩
  have h := mapM_map_roundtrip CorePackage.toJson CorePackage.fromJson
    corePackage_fromJson_toJson pkgs
  simp only [List.mapM] at h
  simp [UserBackup.toJson, UserBackup.fromJson, Json.getField, List.lookup,
    Json.asNat, Json.asArr, bind, Except.bind, pure, Except.pure, h]

theorem phoneBackup_fromJson_toJson (b : PhoneBackup) :
    PhoneBackup.fromJson b.toJson = .ok b := by
  rcases b with ⟨d, us⟩
  have h := mapM_map_roundtrip UserBackup.toJson UserBackup.fromJson
    userBackup_fromJson_toJson us
  simp only [List.mapM] at h
  simp [PhoneBackup.toJson, PhoneBackup.fromJson, Json.getField, List.lookup,
    Json.asString, Json.asArr, bind, Except.bind, pure, Except.pure, h]

theorem RResult.map_id {α : Type} (r : RResult α) :
    RResult.map (fun a => a) r = r := by
  cases r <;> rfl

theorem RResult.map_eq_ok {α β : Type} (f : α → β) (r : RResult α) (b : β) :
    RResult.map f r = .ok b ↔ ∃ a, r = .ok a ∧ b = f a := by
  cases r <;> simp [RResult.map]
  exact eq_comm

theorem processPackage_ok_some (apply : ApplyFn) (sd : Phone)
    (packages : List (List PackageRow)) (su : User) (ubId userIndex i : Nat)
    (bp : CorePackage) (entry : BackupPackage)
    (h : processPackage apply sd packages su ubId userIndex i bp = .ok (some entry)) :
    entry.commands ≠ [] := by
  unfold processPackage at h
  cases hrows : packages[userIndex]? with
  | none =>
    simp only [hrows] at h
    exact RResult.noConfusion h
  | some rows =>
    simp only [hrows] at h
    cases hfind : rows.find? (fun x => x.name == bp.name) with
    | none =>
      simp only [hfind] at h
      exact RResult.noConfusion h
    | some p =>
      simp only [hfind] at h
      by_cases hc : (apply p.toCore bp.state su sd).isEmpty
      · rw [if_pos hc] at h
        simp at h
      · rw [if_neg hc] at h
        simp only [RResult.ok.injEq, Option.some.injEq] at h
        subst h
        intro hnil
        have hnil2 : apply p.toCore bp.state su sd = [] := hnil
        rw [hnil2] at hc
        exact hc rfl

theorem processPackages_ok_mem (apply : ApplyFn) (sd : Phone)
    (packages : List (List PackageRow)) (su : User) (ubId userIndex : Nat) :
    ∀ (l : List CorePackage) (i : Nat) (acc : List BackupPackage),
      processPackages apply sd packages su ubId userIndex i l = .ok acc →
      ∀ e ∈ acc, e.commands ≠ [] := by
  intro l
  induction l with
  | nil =>
    intro i acc h
    simp only [processPackages, RResult.ok.injEq] at h
    intro e he
    rw [← h] at he
    simp at he
  | cons bp rest ih =>
    intro i acc h
    simp only [processPackages] at h
    cases hp : processPackage apply sd packages su ubId userIndex i bp with
    | ok o =>
      simp only [hp] at h
      cases o with
      | none => exact ih (i + 1) acc h
      | some entry =>
        rw [RResult.map_eq_ok] at h
        obtain ⟨a, ha, rfl⟩ := h
        intro e he
        rcases List.mem_cons.mp he with rfl | hmem
        · exact processPackage_ok_some apply sd packages su ubId userIndex i bp e hp
        · exact ih (i + 1) a ha e hmem
    | err e =>
      simp only [hp] at h
      exact RResult.noConfusion h
    | panic =>
      simp only [hp] at h
      exact RResult.noConfusion h

theorem processUsers_ok_mem (apply : ApplyFn) (sd : Phone)
    (packages : List (List PackageRow)) (su : User) :
    ∀ (l : List UserBackup) (acc : List BackupPackage),
      processUsers apply sd packages su l = .ok acc →
      ∀ e ∈ acc, e.commands ≠ [] := by
  intro l
  induction l with
  | nil =>
    intro acc h
    simp only [processUsers, RResult.ok.injEq] at h
    intro e he
    rw [← h] at he
    simp at he
  | cons ub rest ih =>
    intro acc h
    simp only [processUsers] at h
    cases hf : sd.user_list.find? (fun x => x.id == ub.id) with
    | none =>
      simp only [hf] at h
      exact RResult.noConfusion h
    | some u =>
      simp only [hf] at h
      cases hp : processPackages apply sd packages su ub.id u.index 0 ub.packages with
      | ok lhead =>
        simp only [hp] at h
        rw [RResult.map_eq_ok] at h
        obtain ⟨a, ha, rfl⟩ := h
        intro e he
        rcases List.mem_append.mp he with hmem | hmem
        · exact processPackages_ok_mem apply sd packages su ub.id u.index ub.packages 0 lhead hp e hmem
        · exact ih a ha e hmem
      | err e =>
        simp only [hp] at h
        exact RResult.noConfusion h
      | panic =>
        simp only [hp] at h
        exact RResult.noConfusion h

theorem processPackages_append (apply : ApplyFn) (sd : Phone)
    (packages : List (List PackageRow)) (su : User) (ubId userIndex : Nat)
    (l1 l2 : List CorePackage) (i : Nat) :
    processPackages apply sd packages su ubId userIndex i (l1 ++ l2) =
      match processPackages apply sd packages su ubId userIndex i l1 with
      | .ok a =>
        RResult.map (fun b => a ++ b)
          (processPackages apply sd packages su ubId userIndex (i + l1.length) l2)
      | .err e => .err e
      | .panic => .panic := by
  induction l1 generalizing i with
  | nil => simp [processPackages, RResult.map_id]
  | cons bp rest ih =>
    simp only [List.cons_append, processPackages, List.append_eq]
    have harith : i + 1 + rest.length = i + (rest.length + 1) := by omega
    cases hp : processPackage apply sd packages su ubId userIndex i bp with
    | ok o =>
      cases o with
      | none =>
        rw [ih (i + 1), List.length_cons, harith]
      | some entry =>
        rw [ih (i + 1), List.length_cons, harith]
        cases hr : processPackages apply sd packages su ubId userIndex (i + 1) rest with
        | ok a =>
          cases hl : processPackages apply sd packages su ubId userIndex (i + (rest.length + 1)) l2 <;>
            simp [RResult.map]
        | err e => simp [RResult.map]
        | panic => simp [RResult.map]
    | err e => simp only [hp]
    | panic => simp only [hp]

theorem processUsers_append (apply : ApplyFn) (sd : Phone)
    (packages : List (List PackageRow)) (su : User) (l1 l2 : List UserBackup) :
    processUsers apply sd packages su (l1 ++ l2) =
      match processUsers apply sd packages su l1 with
      | .ok a => RResult.map (fun b => a ++ b) (processUsers apply sd packages su l2)
      | .err e => .err e
      | .panic => .panic := by
  induction l1 with
  | nil => simp [processUsers, RResult.map_id]
  | cons ub rest ih =>
    cases hf : sd.user_list.find? (fun x => x.id == ub.id) with
    | none => simp only [List.cons_append, processUsers, hf]
    | some u =>
      cases hp : processPackages apply sd packages su ub.id u.index 0 ub.packages with
      | ok lhead =>
        simp only [List.cons_append, processUsers, hf, hp, List.append_eq, ih]
        cases hr : processUsers apply sd packages su rest <;>
          cases hl : processUsers apply sd packages su l2 <;>
            simp [RResult.map, List.append_assoc]
      | err e => simp only [List.cons_append, processUsers, hf, hp]
      | panic => simp only [List.cons_append, processUsers, hf, hp]

theorem restore_backup_eq (rf : String → Except String Json) (apply : ApplyFn)
    (sd : Phone) (packages : List (List PackageRow)) (settings : DeviceSettings)
    (dp : DisplayablePath) (j : Json) (pb : PhoneBackup) (su : User)
    (hsel : settings.backup.selected = some dp)
    (hread : rf dp.path = .ok j)
    (hparse : PhoneBackup.fromJson j = .ok pb)
    (huser : settings.backup.selected_user = some su) :
    restore_backup rf apply sd packages settings =
      match processUsers apply sd packages su pb.users with
      | .ok cmds => .ok (if cmds.isEmpty then cmds else cmds ++ [{ index := 0, commands := [] }])
      | .err e => .err e
      | .panic => .panic := by
  unfold restore_backup
  simp only [hsel, hread, hparse, huser]

theorem processPackages_ok_found (apply : ApplyFn) (sd : Phone)
    (packages : List (List PackageRow)) (su : User) (ubId userIndex : Nat)
    (rows : List PackageRow) (hrows : packages[userIndex]? = some rows) :
    ∀ (l : List CorePackage) (i : Nat) (acc : List BackupPackage),
      processPackages apply sd packages su ubId userIndex i l = .ok acc →
      ∀ bp ∈ l, ∃ p, rows.find? (fun x => x.name == bp.name) = some p := by
  intro l
  induction l with
  | nil =>
    intro i acc _ bp hmem
    simp at hmem
  | cons hd rest ih =>
    intro i acc h bp hmem
    simp only [processPackages] at h
    cases hp : processPackage apply sd packages su ubId userIndex i hd with
    | ok o =>
      simp only [hp] at h
      rcases List.mem_cons.mp hmem with rfl | hmem2
      · unfold processPackage at hp
        simp only [hrows] at hp
        cases hfind : rows.find? (fun x => x.name == bp.name) with
        | none => simp only [hfind] at hp; exact RResult.noConfusion hp
        | some p => exact ⟨p, rfl⟩
      · cases o with
        | none => exact ih (i + 1) acc h bp hmem2
        | some entry =>
          rw [RResult.map_eq_ok] at h
          obtain ⟨a, ha, rfl⟩ := h
          exact ih (i + 1) a ha bp hmem2
    | err e =>
      simp only [hp] at h
      exact RResult.noConfusion h
    | panic =>
      simp only [hp] at h
      exact RResult.noConfusion h

theorem processUsers_ok_found (apply : ApplyFn) (sd : Phone)
    (packages : List (List PackageRow)) (su : User) :
    ∀ (l : List UserBackup) (acc : List BackupPackage),
      processUsers apply sd packages su l = .ok acc →
      ∀ ub ∈ l, ∃ u, sd.user_list.find? (fun x => x.id == ub.id) = some u ∧
        ∃ lacc, processPackages apply sd packages su ub.id u.index 0 ub.packages = .ok lacc := by
  intro l
  induction l with
  | nil =>
    intro acc _ ub hmem
    simp at hmem
  | cons hd rest ih =>
    intro acc h ub hmem
    simp only [processUsers] at h
    cases hf : sd.user_list.find? (fun x => x.id == hd.id) with
    | none =>
      simp only [hf] at h
      exact RResult.noConfusion h
    | some u =>
      simp only [hf] at h
      cases hp : processPackages apply sd packages su hd.id u.index 0 hd.packages with
      | ok lhead =>
        simp only [hp] at h
        rcases List.mem_cons.mp hmem with rfl | hmem2
        · exact ⟨u, hf, lhead, hp⟩
        · rw [RResult.map_eq_ok] at h
          obtain ⟨a, ha, rfl⟩ := h
          exact ih a ha ub hmem2
      | err e =>
        simp only [hp] at h
        exact RResult.noConfusion h
      | panic =>
        simp only [hp] at h
        exact RResult.noConfusion h

theorem processPackages_no_panic (apply : ApplyFn) (sd : Phone)
    (packages : List (List PackageRow)) (su : User) (ubId userIndex : Nat)
    (rows : List PackageRow) (hrows : packages[userIndex]? = some rows) :
    ∀ (l : List CorePackage) (i : Nat),
      processPackages apply sd packages su ubId userIndex i l ≠ .panic := by
  intro l
  induction l with
  | nil =>
    intro i h
    simp only [processPackages] at h
    exact RResult.noConfusion h
  | cons hd rest ih =>
    intro i h
    simp only [processPackages] at h
    cases hp : processPackage apply sd packages su ubId userIndex i hd with
    | ok o =>
      simp only [hp] at h
      cases o with
      | none => exact ih (i + 1) h
      | some entry =>
        cases hr : processPackages apply sd packages su ubId userIndex (i + 1) rest with
        | ok a =>
          simp only [hr, RResult.map] at h
          exact RResult.noConfusion h
        | err e =>
          simp only [hr, RResult.map] at h
          exact RResult.noConfusion h
        | panic => exact ih (i + 1) hr
    | err e =>
      simp only [hp] at h
      exact RResult.noConfusion h
    | panic =>
      unfold processPackage at hp
      simp only [hrows] at hp
      cases hfind : rows.find? (fun x => x.name == hd.name) with
      | none => simp only [hfind] at hp; exact RResult.noConfusion hp
      | some p =>
        simp only [hfind] at hp
        by_cases hc : (apply p.toCore hd.state su sd).isEmpty
        · rw [if_pos hc] at hp; exact RResult.noConfusion hp
        · rw [if_neg hc] at hp; exact RResult.noConfusion hp

theorem processUsers_no_panic (apply : ApplyFn) (sd : Phone)
    (packages : List (List PackageRow)) (su : User) :
    ∀ (l : List UserBackup),
      (∀ ub ∈ l, ∀ u, sd.user_list.find? (fun x => x.id == ub.id) = some u →
        u.index < packages.length) →
      processUsers apply sd packages su l ≠ .panic := by
  intro l
  induction l with
  | nil =>
    intro _ h
    simp only [processUsers] at h
    exact RResult.noConfusion h
  | cons hd rest ih =>
    intro hbound h
    simp only [processUsers] at h
    cases hf : sd.user_list.find? (fun x => x.id == hd.id) with
    | none =>
      simp only [hf] at h
      exact RResult.noConfusion h
    | some u =>
      simp only [hf] at h
      have hidx : u.index < packages.length :=
        hbound hd (List.mem_cons_self hd rest) u hf
      have hrows : ∃ rows, packages[u.index]? = some rows := by
        rw [List.getElem?_eq_getElem hidx]
        exact ⟨_, rfl⟩
      obtain ⟨rows, hrows⟩ := hrows
      cases hp : processPackages apply sd packages su hd.id u.index 0 hd.packages with
      | ok lhead =>
        simp only [hp] at h
        cases hr : processUsers apply sd packages su rest with
        | ok a =>
          simp only [hr, RResult.map] at h
          exact RResult.noConfusion h
        | err e =>
          simp only [hr, RResult.map] at h
          exact RResult.noConfusion h
        | panic =>
          exact ih (fun ub hmem => hbound ub (List.mem_cons_of_mem hd hmem)) hr
      | err e =>
        simp only [hp] at h
        exact RResult.noConfusion h
      | panic =>
        exact processPackages_no_panic apply sd packages su hd.id u.index rows hrows hd.packages 0 hp

theorem processPackages_all_empty (apply : ApplyFn) (sd : Phone)
    (packages : List (List PackageRow)) (su : User) (ubId userIndex : Nat)
    (rows : List PackageRow) (hrows : packages[userIndex]? = some rows) :
    ∀ (l : List CorePackage),
      (∀ bp ∈ l, ∃ p, rows.find? (fun x => x.name == bp.name) = some p ∧
        apply p.toCore bp.state su sd = []) →
      ∀ i, processPackages apply sd packages su ubId userIndex i l = .ok [] := by
  intro l
  induction l with
  | nil =>
    intro _ i
    simp [processPackages]
  | cons hd rest ih =>
    intro hfound i
    obtain ⟨p, hp, hap⟩ := hfound hd (List.mem_cons_self hd rest)
    have hpp : processPackage apply sd packages su ubId userIndex i hd = .ok none := by
      unfold processPackage
      simp [hrows, hp, hap]
    simp only [processPackages, hpp]
    exact ih (fun bp hmem => hfound bp (List.mem_cons_of_mem hd hmem)) (i + 1)

theorem processUsers_all_empty (apply : ApplyFn) (sd : Phone)
    (packages : List (List PackageRow)) (su : User) :
    ∀ (l : List UserBackup),
      (∀ ub ∈ l, ∃ u rows, sd.user_list.find? (fun x => x.id == ub.id) = some u ∧
        packages[u.index]? = some rows ∧
        ∀ bp ∈ ub.packages, ∃ p, rows.find? (fun x => x.name == bp.name) = some p ∧
          apply p.toCore bp.state su sd = []) →
      processUsers apply sd packages su l = .ok [] := by
  intro l
  induction l with
  | nil =>
    intro _
    simp [processUsers]
  | cons hd rest ih =>
    intro hres
    obtain ⟨u, rows, hf, hrows, hfound⟩ := hres hd (List.mem_cons_self hd rest)
    have hpk := processPackages_all_empty apply sd packages su hd.id u.index rows hrows
      hd.packages hfound 0
    have hrest := ih (fun ub hmem => hres ub (List.mem_cons_of_mem hd hmem))
    simp only [processUsers, hf, hpk, hrest]
    rfl

theorem buildUserBackups_eq (pp : List (List PackageRow)) :
    ∀ (us : List User) (i : Nat), i + us.length ≤ pp.length →
      buildUserBackups us i pp =
        some ((us.zip (pp.drop i)).map
          (fun up => { id := up.1.id, packages := up.2.map PackageRow.toCore })) := by
  intro us
  induction us with
  | nil =>
    intro i _
    simp [buildUserBackups]
  | cons u rest ih =>
    intro i hlen
    rw [List.length_cons] at hlen
    have hi : i < pp.length := by omega
    have hget : pp[i]? = some pp[i] := List.getElem?_eq_getElem hi
    have hdrop : pp.drop i = pp[i] :: pp.drop (i + 1) := List.drop_eq_getElem_cons hi
    have hrec := ih (i + 1) (by omega)
    simp only [buildUserBackups, hget, hrec, hdrop, List.zip_cons_cons, List.map_cons]
    rfl

theorem backup_phone_build_eq (users : List User) (device_id : String)
    (pp : List (List PackageRow)) (h : users.length ≤ pp.length) :
    backup_phone_build users device_id pp =
      some { device_id := device_id,
             users := (users.zip pp).map
               (fun up => { id := up.1.id, packages := up.2.map PackageRow.toCore }) } := by
  unfold backup_phone_build
  rw [buildUserBackups_eq pp users 0 (by omega)]
  simp [List.drop_zero]

theorem restore_backup_ok (rf : String → Except String Json) (apply : ApplyFn)
    (sd : Phone) (packages : List (List PackageRow)) (settings : DeviceSettings)
    (plan : List BackupPackage)
    (h : restore_backup rf apply sd packages settings = .ok plan) :
    ∃ su pbusers cmds, processUsers apply sd packages su pbusers = .ok cmds ∧
      plan = if cmds.isEmpty then cmds else cmds ++ [{ index := 0, commands := [] }] := by
  unfold restore_backup at h
  cases hsel : settings.backup.selected with
  | none =>
    simp only [hsel] at h
    exact RResult.noConfusion h
  | some dp =>
    simp only [hsel] at h
    cases hread : rf dp.path with
    | error e =>
      simp only [hread] at h
      exact RResult.noConfusion h
    | ok j =>
      simp only [hread] at h
      cases hparse : PhoneBackup.fromJson j with
      | error e =>
        simp only [hparse] at h
        exact RResult.noConfusion h
      | ok pb =>
        simp only [hparse] at h
        cases huser : settings.backup.selected_user with
        | none =>
          simp only [huser] at h
          exact RResult.noConfusion h
        | some su =>
          simp only [huser] at h
          cases hproc : processUsers apply sd packages su pb.users with
          | ok cmds =>
            simp only [hproc, RResult.ok.injEq] at h
            exact ⟨su, pb.users, cmds, hproc, h.symm⟩
          | err e =>
            simp only [hproc] at h
            exact RResult.noConfusion h
          | panic =>
            simp only [hproc] at h
            exact RResult.noConfusion h

/-- C7: for every positionally aligned input, the snapshot built by
`backup_phone` before persisting has one `UserBackup` per input user, in
input order, with the id of that user copied verbatim and every `(name, state)`
pair of its package list captured — no package is dropped because of its
state. -/
theorem C7_build_mirrors_input (users : List User) (device_id : String)
    (pp : List (List PackageRow)) (h : users.length ≤ pp.length) :
    backup_phone_build users device_id pp =
      some { device_id := device_id,
             users := (users.zip pp).map
               (fun up => { id := up.1.id, packages := up.2.map PackageRow.toCore }) } :=
  backup_phone_build_eq users device_id pp h

theorem C7_build_mirrors_input_witness :
    backup_phone_build [{ id := 3, index := 0, «protected» := false }] "dev"
        [[{ name := "com.foo", state := .uninstalled }]] =
      some { device_id := "dev",
             users := [{ id := 3,
                         packages := [{ name := "com.foo", state := .uninstalled }] }] } := by
  have h := C7_build_mirrors_input [{ id := 3, index := 0, «protected» := false }] "dev"
    [[{ name := "com.foo", state := .uninstalled }]] (by decide)
  simpa [PackageRow.toCore] using h

/-- C6: building a snapshot from aligned users and package lists, writing
it, reading the written value back and deserializing it yields the same
`device_id` and, per user in order, exactly the same `(id, packages)`
data: capture and serialization are lossless. -/
theorem C6_roundtrip (users : List User) (device_id : String)
    (pp : List (List PackageRow)) (h : users.length ≤ pp.length) :
    ∃ pb, backup_phone_build users device_id pp = some pb ∧
      PhoneBackup.fromJson pb.toJson = .ok pb ∧
      pb.device_id = device_id ∧
      pb.users.map (fun ub => (ub.id, ub.packages)) =
        (users.zip pp).map (fun up => (up.1.id, up.2.map PackageRow.toCore)) := by
  refine ⟨_, backup_phone_build_eq users device_id pp h,
    phoneBackup_fromJson_toJson _, rfl, ?_⟩
  simp [List.map_map, Function.comp]

theorem C6_roundtrip_witness :
    ∃ pb, backup_phone_build [{ id := 1, index := 0, «protected» := false }] "pixel"
        [[{ name := "com.foo", state := .disabled }]] = some pb ∧
      PhoneBackup.fromJson pb.toJson = .ok pb ∧
      pb.device_id = "pixel" ∧
      pb.users.map (fun ub => (ub.id, ub.packages)) =
        [(1, [{ name := "com.foo", state := .disabled }])] := by
  have h := C6_roundtrip [{ id := 1, index := 0, «protected» := false }] "pixel"
    [[{ name := "com.foo", state := .disabled }]] (by decide)
  simpa [PackageRow.toCore] using h

/-- C8: `list_available_backups` never fails: a failed directory read
yields the empty sequence, a failing directory entry is silently skipped
leaving the other entries untouched, and every readable entry contributes
its path to the result. -/
theorem C8_listing_resilient :
    (∀ e, list_available_backups (.error e) = []) ∧
    (∀ es1 es2 msg,
      list_available_backups (.ok (es1 ++ .error msg :: es2)) =
        list_available_backups (.ok (es1 ++ es2))) ∧
    (∀ es d, Except.ok d ∈ es →
      ({ path := d.path } : DisplayablePath) ∈ list_available_backups (.ok es)) := by
  refine ⟨fun e => rfl, fun es1 es2 msg => ?_, fun es d hmem => ?_⟩
  · simp [list_available_backups, List.filterMap_append, Except.toOption]
  · exact List.mem_map.mpr ⟨d, List.mem_filterMap.mpr ⟨.ok d, hmem, rfl⟩, rfl⟩

theorem C8_listing_resilient_witness :
    ({ path := "a.json" } : DisplayablePath) ∈
      list_available_backups (.ok [.error "denied", .ok { path := "a.json" }]) :=
  C8_listing_resilient.2.2 [.error "denied", .ok { path := "a.json" }]
    { path := "a.json" } (by simp)

/-- C9: `list_available_backup_users` maps each user snapshot of a parsed
file to a `User` with the stored id, `index` 0 and `protected` false, in
stored order; on a read failure or a parse failure it returns the empty
sequence instead of an error. -/
theorem C9_backup_users :
    (∀ (j : Json) (pb : PhoneBackup), PhoneBackup.fromJson j = .ok pb →
      list_available_backup_users (.ok j) =
        pb.users.map (fun u => { id := u.id, index := 0, «protected» := false })) ∧
    (∀ e, list_available_backup_users (.error e) = []) ∧
    (∀ (j : Json) (e : String), PhoneBackup.fromJson j = .error e →
      list_available_backup_users (.ok j) = []) := by
  refine ⟨fun j pb hp => ?_, fun e => rfl, fun j e hp => ?_⟩
  · simp [list_available_backup_users, hp]
  · simp [list_available_backup_users, hp]

theorem C9_backup_users_witness :
    list_available_backup_users (.ok demoBackupNoUser.toJson) =
      [{ id := 7, index := 0, «protected» := false }] := by
  have h := C9_backup_users.1 demoBackupNoUser.toJson demoBackupNoUser
    (phoneBackup_fromJson_toJson demoBackupNoUser)
  simpa [demoBackupNoUser] using h

/-- C1 counterexample: with a backup selected, the target user selection
absent and the file read failing, `restore_backup` returns the read error
in place of the missing-selection error, because the user-selection check
runs only after the file has been read and parsed (save.rs lines 121 to
129).  This refutes the claim that a missing user selection always yields
the NoSelection error before any file access. -/
theorem C1_counterexample :
    restore_backup (fun _ => .error "read failed") demoApply demoPhone demoPackages
        demoSettingsNoUser = .err "read failed" ∧
    (RResult.err "read failed" : RResult (List BackupPackage)) ≠ .err "No user selected" :=
  ⟨rfl, by decide⟩

/-- C1 amended: the backup-selection check precedes any file access (with
no backup selected the result is the error "No backup selected" and is
independent of the file system), while the target-user-selection check
runs only after the file is read and parsed: with the user selection
missing, a read failure is returned in its place, and "No user selected"
is returned once read and parse succeed. -/
theorem C1_selection_order :
    (∀ rf rf2 apply sd packages settings,
      settings.backup.selected = none →
      restore_backup rf apply sd packages settings = .err "No backup selected" ∧
      restore_backup rf apply sd packages settings =
        restore_backup rf2 apply sd packages settings) ∧
    (∀ rf apply sd packages settings dp e,
      settings.backup.selected = some dp →
      rf dp.path = .error e →
      settings.backup.selected_user = none →
      restore_backup rf apply sd packages settings = .err e) ∧
    (∀ rf apply sd packages settings dp j pb,
      settings.backup.selected = some dp →
      rf dp.path = .ok j →
      PhoneBackup.fromJson j = .ok pb →
      settings.backup.selected_user = none →
      restore_backup rf apply sd packages settings = .err "No user selected") := by
  refine ⟨fun rf rf2 apply sd packages settings hsel => ?_,
    fun rf apply sd packages settings dp e hsel hread huser => ?_,
    fun rf apply sd packages settings dp j pb hsel hread hparse huser => ?_⟩
  · unfold restore_backup
    rw [hsel]
    exact ⟨rfl, rfl⟩
  · unfold restore_backup
    simp only [hsel, hread]
  · unfold restore_backup
    simp only [hsel, hread, hparse, huser]

theorem C1_selection_order_witness :
    restore_backup (fun _ => .error "io oops") demoApply demoPhone demoPackages
        demoSettingsNoUser = .err "io oops" :=
  C1_selection_order.2.1 (fun _ => .error "io oops") demoApply demoPhone demoPackages
    demoSettingsNoUser { path := "b.json" } "io oops" rfl rfl rfl

/-- C2: every plan returned by a successful `restore_backup` is either
empty or ends in the sentinel entry with index 0 and no commands, every
other entry carrying at least one command; in particular, when no entry
carries a command the plan is empty — no lone sentinel is appended. -/
theorem C2_sentinel (rf : String → Except String Json) (apply : ApplyFn)
    (sd : Phone) (packages : List (List PackageRow)) (settings : DeviceSettings)
    (plan : List BackupPackage)
    (h : restore_backup rf apply sd packages settings = .ok plan) :
    ((∃ e ∈ plan, e.commands ≠ []) →
      plan.getLast? = some { index := 0, commands := [] }) ∧
    ((∀ e ∈ plan, e.commands = []) → plan = []) := by
  obtain ⟨su, pbusers, cmds, hproc, hplan⟩ :=
    restore_backup_ok rf apply sd packages settings plan h
  have hmem := processUsers_ok_mem apply sd packages su pbusers cmds hproc
  rcases cmds with _ | ⟨c, cs⟩
  · simp only [List.isEmpty_nil, if_true] at hplan
    subst hplan
    exact ⟨fun he => absurd he.choose_spec.1 (List.not_mem_nil _), fun _ => rfl⟩
  · rw [if_neg (by simp)] at hplan
    subst hplan
    refine ⟨fun _ => ?_, fun hall => ?_⟩
    · rw [List.getLast?_append_cons]
      rfl
    · exact absurd (hall c (by simp)) (hmem c (by simp))

theorem C2_sentinel_witness :
    ([{ index := 0, commands := ["pm disable-user com.foo"] },
      { index := 0, commands := [] }] : List BackupPackage).getLast? =
      some { index := 0, commands := [] } := by
  have h := C2_sentinel (readOf demoBackup) demoApply demoPhone demoPackages demoSettings
    [{ index := 0, commands := ["pm disable-user com.foo"] },
     { index := 0, commands := [] }] (by decide)
  exact h.1 ⟨{ index := 0, commands := ["pm disable-user com.foo"] }, by simp, by simp⟩

/-- C5: when every snapshot user resolves to a live user whose index is
inside the live package table, every snapshot package is found in that
list, and the state-transition collaborator returns an empty command list
for each of those calls — as it does when every found live package already
carries the snapshot-recorded state — `restore_backup` returns the empty
plan, with no sentinel entry. -/
theorem C5_converged_empty (rf : String → Except String Json) (apply : ApplyFn)
    (sd : Phone) (packages : List (List PackageRow)) (settings : DeviceSettings)
    (dp : DisplayablePath) (j : Json) (pb : PhoneBackup) (su : User)
    (hsel : settings.backup.selected = some dp)
    (hread : rf dp.path = .ok j)
    (hparse : PhoneBackup.fromJson j = .ok pb)
    (huser : settings.backup.selected_user = some su)
    (hresolve : ∀ ub ∈ pb.users, ∃ u rows,
      sd.user_list.find? (fun x => x.id == ub.id) = some u ∧
      packages[u.index]? = some rows ∧
      ∀ bp ∈ ub.packages, ∃ p, rows.find? (fun x => x.name == bp.name) = some p ∧
        apply p.toCore bp.state su sd = []) :
    restore_backup rf apply sd packages settings = .ok [] := by
  rw [restore_backup_eq rf apply sd packages settings dp j pb su hsel hread hparse huser,
    processUsers_all_empty apply sd packages su pb.users hresolve]
  rfl

theorem C5_converged_empty_witness :
    restore_backup (readOf demoBackupSame) demoApply demoPhone demoPackages
        demoSettings = .ok [] := by
  refine C5_converged_empty (readOf demoBackupSame) demoApply demoPhone demoPackages
    demoSettings { path := "b.json" } demoBackupSame.toJson demoBackupSame
    { id := 1, index := 0, «protected» := false } rfl rfl
    (phoneBackup_fromJson_toJson demoBackupSame) rfl ?_
  intro ub hub
  simp only [demoBackupSame, List.mem_singleton] at hub
  subst hub
  refine ⟨{ id := 1, index := 0, «protected» := false },
    [{ name := "com.foo", state := .enabled }], rfl, rfl, fun bp hbp => ?_⟩
  simp only [List.mem_singleton] at hbp
  subst hbp
  exact ⟨{ name := "com.foo", state := .enabled }, rfl, rfl⟩

/-- C3: a snapshot user whose id matches no live device user makes the
whole restore fail with the text of save.rs line 136 naming that id, once
the preceding users have processed successfully; and no plan at all is
returned while such a user is present in the parsed snapshot. -/
theorem C3_user_not_found :
    (∀ rf apply sd packages settings dp j pb su pre ub post acc,
      settings.backup.selected = some dp →
      rf dp.path = .ok j →
      PhoneBackup.fromJson j = .ok pb →
      settings.backup.selected_user = some su →
      pb.users = pre ++ ub :: post →
      processUsers apply sd packages su pre = .ok acc →
      (∀ u ∈ sd.user_list, u.id ≠ ub.id) →
      restore_backup rf apply sd packages settings = .err (userNotFoundMsg ub.id)) ∧
    (∀ rf apply sd packages settings dp j pb su ub plan,
      settings.backup.selected = some dp →
      rf dp.path = .ok j →
      PhoneBackup.fromJson j = .ok pb →
      settings.backup.selected_user = some su →
      ub ∈ pb.users →
      (∀ u ∈ sd.user_list, u.id ≠ ub.id) →
      restore_backup rf apply sd packages settings ≠ .ok plan) := by
  constructor
  · intro rf apply sd packages settings dp j pb su pre ub post acc hsel hread hparse
      huser husers hpre hnone
    have hfind : sd.user_list.find? (fun x => x.id == ub.id) = none :=
      List.find?_eq_none.mpr (fun u hu => by simpa using hnone u hu)
    rw [restore_backup_eq rf apply sd packages settings dp j pb su hsel hread hparse huser,
      husers, processUsers_append apply sd packages su pre (ub :: post), hpre]
    simp only [processUsers, hfind, RResult.map]
  · intro rf apply sd packages settings dp j pb su ub plan hsel hread hparse huser
      hmem hnone hok
    rw [restore_backup_eq rf apply sd packages settings dp j pb su hsel hread hparse huser]
      at hok
    cases hproc : processUsers apply sd packages su pb.users with
    | ok cmds =>
      obtain ⟨u, hfind, -⟩ :=
        processUsers_ok_found apply sd packages su pb.users cmds hproc ub hmem
      exact hnone u (List.mem_of_find?_eq_some hfind)
        (by simpa using List.find?_some hfind)
    | err e =>
      simp only [hproc] at hok
      exact RResult.noConfusion hok
    | panic =>
      simp only [hproc] at hok
      exact RResult.noConfusion hok

theorem C3_user_not_found_witness :
    restore_backup (readOf demoBackupNoUser) demoApply demoPhoneTwo demoPackages
        demoSettings = .err (userNotFoundMsg 7) :=
  C3_user_not_found.1 (readOf demoBackupNoUser) demoApply demoPhoneTwo demoPackages
    demoSettings { path := "b.json" } demoBackupNoUser.toJson demoBackupNoUser
    { id := 1, index := 0, «protected» := false } [] { id := 7, packages := [] } [] []
    rfl rfl (phoneBackup_fromJson_toJson demoBackupNoUser) rfl rfl rfl (by decide)

/-- C4: a snapshot package whose name is absent from the live package list
of the resolved user makes the whole restore fail with the text of save.rs
line 144 carrying that name and the snapshot user id, once all preceding
users and packages processed successfully; and no plan at all is returned
while such a package is present. -/
theorem C4_package_not_found :
    (∀ rf apply sd packages settings dp j pb su preU ub postU accU u rows preP bp postP accP,
      settings.backup.selected = some dp →
      rf dp.path = .ok j →
      PhoneBackup.fromJson j = .ok pb →
      settings.backup.selected_user = some su →
      pb.users = preU ++ ub :: postU →
      processUsers apply sd packages su preU = .ok accU →
      sd.user_list.find? (fun x => x.id == ub.id) = some u →
      packages[u.index]? = some rows →
      ub.packages = preP ++ bp :: postP →
      processPackages apply sd packages su ub.id u.index 0 preP = .ok accP →
      (∀ row ∈ rows, row.name ≠ bp.name) →
      restore_backup rf apply sd packages settings =
        .err (packageNotFoundMsg bp.name ub.id)) ∧
    (∀ rf apply sd packages settings dp j pb su ub u rows bp plan,
      settings.backup.selected = some dp →
      rf dp.path = .ok j →
      PhoneBackup.fromJson j = .ok pb →
      settings.backup.selected_user = some su →
      ub ∈ pb.users →
      sd.user_list.find? (fun x => x.id == ub.id) = some u →
      packages[u.index]? = some rows →
      bp ∈ ub.packages →
      (∀ row ∈ rows, row.name ≠ bp.name) →
      restore_backup rf apply sd packages settings ≠ .ok plan) := by
  constructor
  · intro rf apply sd packages settings dp j pb su preU ub postU accU u rows preP bp
      postP accP hsel hread hparse huser husers hpreU hfind hrows hpkgs hpreP hnone
    have hfindp : rows.find? (fun x => x.name == bp.name) = none :=
      List.find?_eq_none.mpr (fun row hrow => by simpa using hnone row hrow)
    have hpp : processPackage apply sd packages su ub.id u.index (0 + preP.length) bp =
        .err (packageNotFoundMsg bp.name ub.id) := by
      unfold processPackage
      simp only [hrows, hfindp]
    rw [restore_backup_eq rf apply sd packages settings dp j pb su hsel hread hparse huser,
      husers, processUsers_append apply sd packages su preU (ub :: postU), hpreU]
    simp only [processUsers, hfind]
    rw [hpkgs, processPackages_append apply sd packages su ub.id u.index preP (bp :: postP) 0,
      hpreP]
    simp only [processPackages, hpp, RResult.map]
  · intro rf apply sd packages settings dp j pb su ub u rows bp plan hsel hread hparse
      huser hmemU hfind hrows hmemP hnone hok
    rw [restore_backup_eq rf apply sd packages settings dp j pb su hsel hread hparse huser]
      at hok
    cases hproc : processUsers apply sd packages su pb.users with
    | ok cmds =>
      obtain ⟨u2, hfind2, lacc, hpk⟩ :=
        processUsers_ok_found apply sd packages su pb.users cmds hproc ub hmemU
      have h12 : some u = some u2 := by rw [← hfind, ← hfind2]
      cases Option.some.inj h12
      obtain ⟨p, hfp⟩ := processPackages_ok_found apply sd packages su ub.id u.index rows
        hrows ub.packages 0 lacc hpk bp hmemP
      exact hnone p (List.mem_of_find?_eq_some hfp) (by simpa using List.find?_some hfp)
    | err e =>
      simp only [hproc] at hok
      exact RResult.noConfusion hok
    | panic =>
      simp only [hproc] at hok
      exact RResult.noConfusion hok

theorem C4_package_not_found_witness :
    restore_backup (readOf demoBackupNoPkg) demoApply demoPhone demoPackages
        demoSettings = .err (packageNotFoundMsg "com.example.app" 1) :=
  C4_package_not_found.1 (readOf demoBackupNoPkg) demoApply demoPhone demoPackages
    demoSettings { path := "b.json" } demoBackupNoPkg.toJson demoBackupNoPkg
    { id := 1, index := 0, «protected» := false } [] 
    { id := 1, packages := [{ name := "com.example.app", state := .disabled }] } [] []
    { id := 1, index := 0, «protected» := false } [{ name := "com.foo", state := .enabled }]
    [] { name := "com.example.app", state := .disabled } [] []
    rfl rfl (phoneBackup_fromJson_toJson demoBackupNoPkg) rfl rfl rfl rfl rfl rfl rfl
    (by decide)

/-- C10: `restore_backup` indexes the live package table with the index of the matched
live user and no bounds check: whenever every matched snapshot
user carries an index inside the table the computation cannot panic, and
a matched user with an out-of-range index and at least one package makes
it panic — after the earlier users processed successfully — an outcome
distinct from every Ok plan and from every typed error string. -/
theorem C10_unchecked_index :
    (∀ rf apply sd packages settings dp j pb su,
      settings.backup.selected = some dp →
      rf dp.path = .ok j →
      PhoneBackup.fromJson j = .ok pb →
      settings.backup.selected_user = some su →
      (∀ ub ∈ pb.users, ∀ u, sd.user_list.find? (fun x => x.id == ub.id) = some u →
        u.index < packages.length) →
      restore_backup rf apply sd packages settings ≠ .panic) ∧
    (∀ rf apply sd packages settings dp j pb su pre ub post acc u bp rest,
      settings.backup.selected = some dp →
      rf dp.path = .ok j →
      PhoneBackup.fromJson j = .ok pb →
      settings.backup.selected_user = some su →
      pb.users = pre ++ ub :: post →
      processUsers apply sd packages su pre = .ok acc →
      sd.user_list.find? (fun x => x.id == ub.id) = some u →
      packages[u.index]? = none →
      ub.packages = bp :: rest →
      restore_backup rf apply sd packages settings = .panic) ∧
    (∀ s, (RResult.panic : RResult (List BackupPackage)) ≠ .err s) ∧
    (∀ plan, (RResult.panic : RResult (List BackupPackage)) ≠ .ok plan) := by
  refine ⟨?_, ?_, fun s h => RResult.noConfusion h, fun plan h => RResult.noConfusion h⟩
  · intro rf apply sd packages settings dp j pb su hsel hread hparse huser hbound hpanic
    rw [restore_backup_eq rf apply sd packages settings dp j pb su hsel hread hparse huser]
      at hpanic
    cases hproc : processUsers apply sd packages su pb.users with
    | ok cmds =>
      simp only [hproc] at hpanic
      exact RResult.noConfusion hpanic
    | err e =>
      simp only [hproc] at hpanic
      exact RResult.noConfusion hpanic
    | panic => exact processUsers_no_panic apply sd packages su pb.users hbound hproc
  · intro rf apply sd packages settings dp j pb su pre ub post acc u bp rest hsel hread
      hparse huser husers hpre hfind hrows hpkgs
    have hpp : processPackage apply sd packages su ub.id u.index 0 bp = .panic := by
      unfold processPackage
      simp only [hrows]
    rw [restore_backup_eq rf apply sd packages settings dp j pb su hsel hread hparse huser,
      husers, processUsers_append apply sd packages su pre (ub :: post), hpre]
    simp only [processUsers, hfind]
    rw [hpkgs]
    simp only [processPackages, hpp, RResult.map]

theorem C10_unchecked_index_witness :
    restore_backup (readOf demoBackup) demoApply demoPhoneBadIndex demoPackages
        demoSettings = .panic :=
  C10_unchecked_index.2.1 (readOf demoBackup) demoApply demoPhoneBadIndex demoPackages
    demoSettings { path := "b.json" } demoBackup.toJson demoBackup
    { id := 1, index := 0, «protected» := false } []
    { id := 1, packages := [{ name := "com.foo", state := .disabled }] } [] []
    { id := 1, index := 5, «protected» := false }
    { name := "com.foo", state := .disabled } []
    rfl rfl (phoneBackup_fromJson_toJson demoBackup) rfl rfl rfl rfl rfl rfl
